import Mathlib

/-!
Verification model of the burrow directory-scoped secret store.

The definitions below are a shallow embedding of the TypeScript sources,
restricted to the POSIX branch of the code (every occurrence of
`isWindows()` in the source is taken to be `false`, so the path separator
is "/" and no drive-letter normalization applies).  Stateful collaborators
are made explicit: the SQLite `secrets` and `trusted_paths` tables are
lists of rows, and filesystem effects (`realpath`, `stat`, lexical
`path.resolve`) are a record of functions supplied by the caller.
-/

namespace Burrow

/-- Path separator on POSIX (node's `path.sep`). -/
def sep : String := "/"

/-- JS `String.prototype.startsWith`, computed on character lists so that
concrete instances evaluate inside the kernel. -/
def strStartsWith (s pre : String) : Bool :=
  pre.toList.isPrefixOf s.toList

/-- JS `String.prototype.endsWith`. -/
def strEndsWith (s suf : String) : Bool :=
  suf.toList.reverse.isPrefixOf s.toList.reverse

/-- `isAncestorOf` from `src/core/path.ts` (POSIX branch): true iff the two
paths are equal, or the descendant starts with the ancestor followed by the
separator (the separator is not doubled when the ancestor already ends in
one, e.g. the root "/"). -/
def isAncestorOf (ancestorPath descendantPath : String) : Bool :=
  if ancestorPath = descendantPath then true
  else
    let ancestorWithSep :=
      if strEndsWith ancestorPath sep then ancestorPath else ancestorPath ++ sep
    strStartsWith descendantPath ancestorWithSep

/-- SQLite `LIKE` pattern matching, as documented by SQLite and used by the
storage layer's ancestor queries: `%` matches any sequence of characters,
`_` matches any single character, and any other character matches itself
case-insensitively (SQLite's default folding covers ASCII only, which is
also what `Char.toLower` folds). -/
def likeMatch : List Char → List Char → Bool
  | [], s => s.isEmpty
  | '%' :: p, s => s.tails.any (fun t => likeMatch p t)
  | '_' :: p, s =>
    match s with
    | [] => false
    | _ :: s2 => likeMatch p s2
  | c :: p, s =>
    match s with
    | [] => false
    | d :: s2 => (c.toLower == d.toLower) && likeMatch p s2

/-- String form of the SQLite `LIKE` operator: `sqlLike pat s` is
`s LIKE pat`. -/
def sqlLike (pat s : String) : Bool :=
  likeMatch pat.toList s.toList

/-- One row of the SQLite `secrets` table from `src/storage/index.ts`
(`PRIMARY KEY (path, key)`); `value = none` models SQL `NULL`, the
tombstone marker.  The `updated_at` column is timestamp metadata that no
verified behavior reads, so it is omitted from the model. -/
structure SecretRow where
  path : String
  key : String
  value : Option String
deriving DecidableEq

/-- The `secrets` table as a list of rows. -/
abbrev SecretStore := List SecretRow

/-- `Storage.setSecret`: `INSERT ... ON CONFLICT(path, key) DO UPDATE SET
value = excluded.value` — update the row for `(path, key)` in place if it
exists, otherwise insert a new row. -/
def setSecret (store : SecretStore) (path key : String) (value : Option String) :
    SecretStore :=
  if store.any (fun r => r.path == path && r.key == key) then
    store.map (fun r =>
      if r.path == path && r.key == key then { r with value := value } else r)
  else
    store ++ [{ path := path, key := key, value := value }]

/-- `Storage.getPathSecrets`: `SELECT key, value FROM secrets WHERE path = ?`.
The source returns `undefined` for an empty result and the resolver skips
that scope; an empty list makes the resolver's inner loop a no-op, which is
the same behavior. -/
def getPathSecrets (store : SecretStore) (path : String) : List (String × Option String) :=
  (store.filter (fun r => r.path == path)).map (fun r => (r.key, r.value))

/-- `SELECT DISTINCT` de-duplication.  SQL leaves the emission order of a
DISTINCT projection unspecified; the resolver sorts the paths immediately
afterwards, so only the underlying set matters. -/
def sqlDistinct {α : Type} [DecidableEq α] : List α → List α
  | [] => []
  | x :: xs => if x ∈ xs then sqlDistinct xs else x :: sqlDistinct xs

/-- `Storage.getAncestorPaths` (POSIX branch): the SQL query
`SELECT DISTINCT path FROM secrets WHERE ? = path OR ? LIKE path || '/' || '%'
OR path = '/'` with the canonical path bound to both placeholders.  SQLite's
`=` on TEXT is exact (BINARY collation); the second disjunct builds a LIKE
pattern by string concatenation, so wildcard characters inside a stored path
remain wildcards. -/
def getAncestorPaths (store : SecretStore) (canonicalPath : String) : List String :=
  sqlDistinct ((store.filter (fun r =>
    canonicalPath == r.path || sqlLike (r.path ++ "/%") canonicalPath ||
      r.path == "/")).map (fun r => r.path))

/-- `ResolvedSecret` from `src/core/resolver.ts`. -/
structure ResolvedSecret where
  key : String
  value : String
  sourcePath : String
deriving DecidableEq

/-- JS `Map.set`: overwrite in place when the key is present (a JS Map keeps
the original insertion position on update), append otherwise. -/
def jsMapSet {α : Type} (m : List (String × α)) (k : String) (v : α) :
    List (String × α) :=
  if m.any (fun e => e.1 == k) then
    m.map (fun e => if e.1 == k then (k, v) else e)
  else
    m ++ [(k, v)]

/-- JS `Map.get`. -/
def jsMapGet {α : Type} (m : List (String × α)) (k : String) : Option α :=
  (m.find? (fun e => e.1 == k)).map (fun e => e.2)

/-- JS `Map.delete`. -/
def jsMapDelete {α : Type} (m : List (String × α)) (k : String) :
    List (String × α) :=
  m.filter (fun e => !(e.1 == k))

/-- A JS `Map<string, ResolvedSecret>` as an insertion-ordered association
list. -/
abbrev ResolvedMap := List (String × ResolvedSecret)

/-- Lexicographic character-list comparison; `strLe a b` models
`a.localeCompare(b) <= 0` for the path strings the resolver sorts.  The two
orders agree on every comparison the verified statements depend on (in
particular a proper prefix always sorts before its extension under any
collation). -/
def charListLe : List Char → List Char → Bool
  | [], _ => true
  | _ :: _, [] => false
  | a :: as, b :: bs => if a = b then charListLe as bs else decide (a < b)

/-- String comparison used to model the resolver's `localeCompare` sort. -/
def strLe (a b : String) : Bool :=
  charListLe a.toList b.toList

/-- The resolver's `ancestorPaths.sort((a, b) => a.localeCompare(b))`
(POSIX branch). -/
def sortPaths (paths : List String) : List String :=
  paths.insertionSort (fun a b => strLe a b = true)

/-- `Resolver.resolve` from `src/core/resolver.ts`, with the working
directory already canonicalized (the method canonicalizes `cwd` first and
then only uses the canonical form): fetch the ancestor scopes from storage,
sort them shallow-to-deep, and merge each scope's entries into the result
map, a tombstone (`none`) deleting the key and a real value overwriting it
with the scope recorded as `sourcePath`. -/
def resolveCanonical (store : SecretStore) (canonicalCwd : String) : ResolvedMap :=
  let ancestorPaths := sortPaths (getAncestorPaths store canonicalCwd)
  ancestorPaths.foldl (fun resolved scopePath =>
    (getPathSecrets store scopePath).foldl (fun resolved kv =>
      match kv.2 with
      | none => jsMapDelete resolved kv.1
      | some v =>
          jsMapSet resolved kv.1 { key := kv.1, value := v, sourcePath := scopePath })
      resolved) []

/-- Outcome of node's `fs.realpath` on a given path: success with the
resolved path, failure with code ENOENT, or any other filesystem error. -/
inductive RealpathResult
  | ok (realPath : String)
  | enoent
  | fsError
deriving DecidableEq

/-- The filesystem collaborator: `realpath`, lexical `path.resolve`, and
`stat` restricted to the inode field (`none` models a thrown `stat` error,
i.e. the path no longer exists). -/
structure Fs where
  realpath : String → RealpathResult
  resolveLex : String → String
  statInode : String → Option String

/-- `canonicalize` from `src/core/path.ts` (POSIX branch, so the Windows
normalization step is the identity): with `followSymlinks` (the default),
try `realpath`; an ENOENT failure falls back to lexical resolution while
any other error propagates (`none`).  Without `followSymlinks` only lexical
resolution is performed and no error is possible. -/
def canonicalize (fs : Fs) (followSymlinks : Bool) (inputPath : String) :
    Option String :=
  if followSymlinks then
    match fs.realpath inputPath with
    | .ok r => some r
    | .enoent => some (fs.resolveLex inputPath)
    | .fsError => none
  else
    some (fs.resolveLex inputPath)

/-- One row of the `trusted_paths` table (`path` is the primary key). -/
structure TrustedPath where
  path : String
  inode : String
  trustedAt : String
deriving DecidableEq

/-- `Storage.getTrustedAncestorPaths` (POSIX branch): the same WHERE clause
as `getAncestorPaths` — `? = path OR ? LIKE path || '/' || '%' OR
path = '/'` — over the `trusted_paths` table. -/
def getTrustedAncestorRecords (records : List TrustedPath) (canonicalPath : String) :
    List TrustedPath :=
  records.filter (fun t =>
    canonicalPath == t.path || sqlLike (t.path ++ "/%") canonicalPath ||
      t.path == "/")

/-- Reason component of a trust check result. -/
inductive TrustReason
  | notTrusted
  | inodeMismatch
  | pathNotFound
deriving DecidableEq

/-- `TrustCheckResult` from the trust manager. -/
structure TrustCheckResult where
  trusted : Bool
  trustedPath : Option String := none
  reason : Option TrustReason := none
deriving DecidableEq

/-- The trust manager's deepest-first candidate order: the JS comparator
`(a, b) => b.path.length - a.path.length`, i.e. descending path length. -/
def deeperFirst (a b : TrustedPath) : Prop :=
  b.path.length ≤ a.path.length

instance : DecidableRel deeperFirst := fun a b =>
  Nat.decLe b.path.length a.path.length

instance : IsTotal TrustedPath deeperFirst :=
  ⟨fun a b => Nat.le_total b.path.length a.path.length⟩

instance : IsTrans TrustedPath deeperFirst :=
  ⟨fun _ _ _ h1 h2 => Nat.le_trans h2 h1⟩

/-- `trustedAncestors.sort((a, b) => b.path.length - a.path.length)`. -/
def sortTrustDeepestFirst (l : List TrustedPath) : List TrustedPath :=
  l.insertionSort deeperFirst

/-- `getInode(trusted.path)` succeeding with the recorded inode: the
candidate validation performed inside `TrustManager.isTrusted`'s loop. -/
def inodeMatches (fs : Fs) (t : TrustedPath) : Bool :=
  fs.statInode t.path == some t.inode

/-- `TrustManager.isTrusted`: canonicalize (a thrown canonicalization error
yields `path-not-found`), fetch the trusted ancestor records, answer
`not-trusted` when there are none, otherwise scan them deepest-first and
accept the first candidate whose current inode matches the recorded one; a
candidate whose inode differs or whose path no longer exists is skipped,
and `inode-mismatch` is returned when every candidate fails. -/
def isTrusted (fs : Fs) (followSymlinks : Bool) (records : List TrustedPath)
    (targetPath : String) : TrustCheckResult :=
  match canonicalize fs followSymlinks targetPath with
  | none => { trusted := false, reason := some .pathNotFound }
  | some canonicalPath =>
    let trustedAncestors := getTrustedAncestorRecords records canonicalPath
    if trustedAncestors.isEmpty then
      { trusted := false, reason := some .notTrusted }
    else
      match (sortTrustDeepestFirst trustedAncestors).find? (fun t => inodeMatches fs t) with
      | some t => { trusted := true, trustedPath := some t.path }
      | none => { trusted := false, reason := some .inodeMismatch }

/-- `LoadedSecret` shared by both hook implementations. -/
structure LoadedSecret where
  key : String
  value : String
  sourcePath : String
deriving DecidableEq

/-- Persisted `HookState` from `src/core/hook.ts`. -/
structure HookState where
  secrets : List LoadedSecret
  lastDir : String
  loadedAt : String
  skippedKeys : List String
deriving DecidableEq

/-- `HookDiff` of the persisted-state variant (`src/core/hook.ts`). -/
structure HookDiff where
  unset : List String
  set : List LoadedSecret
  skipped : List String
  unchanged : List String
deriving DecidableEq

/-- Conversion from a resolved secret to a loaded secret. -/
def toLoadedSecret (s : ResolvedSecret) : LoadedSecret :=
  { key := s.key, value := s.value, sourcePath := s.sourcePath }

/-- The second loop of `HookStateManager.computeDiff`: classify each newly
resolved secret as to-set, skipped, or unchanged (returned in that order as
a triple), preserving the iteration order of the new map. -/
def classifyNew (currentKeys : List (String × LoadedSecret))
    (skippedFromState : List String) (env : String → Option String) :
    List ResolvedSecret → List LoadedSecret × List String × List String
  | [] => ([], [], [])
  | s :: rest =>
    let r := classifyNew currentKeys skippedFromState env rest
    match jsMapGet currentKeys s.key with
    | some cur =>
      if cur.value == s.value && cur.sourcePath == s.sourcePath then
        (r.1, r.2.1, s.key :: r.2.2)
      else
        (toLoadedSecret s :: r.1, r.2.1, r.2.2)
    | none =>
      if (env s.key).isSome && !(skippedFromState.contains s.key) then
        (r.1, s.key :: r.2.1, r.2.2)
      else
        (toLoadedSecret s :: r.1, r.2.1, r.2.2)

/-- The `currentKeys` map built at the top of `computeDiff`: a JS Map filled
from the persisted state's secrets list in order. -/
def currentKeysMap (currentState : Option HookState) : List (String × LoadedSecret) :=
  (currentState.elim [] (fun st => st.secrets)).foldl
    (fun m s => jsMapSet m s.key s) []

/-- `HookStateManager.computeDiff` from `src/core/hook.ts`: `unset` collects
the previously loaded keys absent from the new resolution, and every key of
the new resolution is classified by `classifyNew`.  The JS `Map` of newly
resolved secrets is modelled as its insertion-ordered entry list. -/
def computeDiff (currentState : Option HookState) (newSecrets : List ResolvedSecret)
    (env : String → Option String) : HookDiff :=
  let currentKeys := currentKeysMap currentState
  let skippedFromState := currentState.elim [] (fun st => st.skippedKeys)
  let unset := (currentKeys.map (fun e => e.1)).filter
    (fun k => !(newSecrets.any (fun s => s.key == k)))
  let c := classifyNew currentKeys skippedFromState env newSecrets
  { unset := unset, set := c.1, skipped := c.2.1, unchanged := c.2.2 }

/-- The supported shells. -/
inductive Shell
  | bash
  | zsh
  | fish
deriving DecidableEq

/-- A single-quote character, used by the shell escaping code. -/
def squote : String := String.singleton (Char.ofNat 39)

/-- Replace every occurrence of the character `c` in `s` by `r` (the shell
escaping code only ever replaces single-character patterns). -/
def replaceChar (s : String) (c : Char) (r : String) : String :=
  String.join (s.toList.map (fun d => if d == c then r else String.singleton d))

/-- `escapeShellValue` (identical in `src/core/hook.ts` and the
caller-supplied-keys hook module): fish wraps in single quotes re-opening
the quote around embedded quotes; bash and zsh emit an ANSI-C quoted string
escaping backslash, single quote, newline, carriage return and tab. -/
def escapeShellValue (value : String) (shell : Shell) : String :=
  match shell with
  | .fish =>
    squote ++ replaceChar value (Char.ofNat 39) (squote ++ "\"" ++ squote ++ "\"" ++ squote) ++ squote
  | _ =>
    let e1 := replaceChar value '\\' "\\\\"
    let e2 := replaceChar e1 (Char.ofNat 39) ("\\" ++ squote)
    let e3 := replaceChar e2 '\n' "\\n"
    let e4 := replaceChar e3 '\r' "\\r"
    let e5 := replaceChar e4 '\t' "\\t"
    "$" ++ squote ++ e5 ++ squote

/-- The unset command emitted for one key. -/
def unsetCommand (shell : Shell) (key : String) : String :=
  match shell with
  | .fish => "set -e " ++ key
  | _ => "unset " ++ key

/-- The set/export command emitted for one loaded secret. -/
def setCommand (shell : Shell) (secret : LoadedSecret) : String :=
  match shell with
  | .fish => "set -gx " ++ secret.key ++ " " ++ escapeShellValue secret.value shell
  | _ => "export " ++ secret.key ++ "=" ++ escapeShellValue secret.value shell

/-- `generateShellCommands` from `src/core/hook.ts`: the unset loop runs
before the set loop. -/
def generateShellCommands (diff : HookDiff) (shell : Shell) : List String :=
  diff.unset.map (unsetCommand shell) ++ diff.set.map (setCommand shell)

/-- `HookDiff` of the caller-supplied-keys variant (the hook module imported
by `BurrowClient.hook`). -/
structure HookDiffP where
  toUnset : List String
  toSet : List LoadedSecret
deriving DecidableEq

/-- `resolveToLoadedSecrets`: the resolved map's values in insertion order. -/
def resolveToLoadedSecrets (secrets : ResolvedMap) : List LoadedSecret :=
  secrets.map (fun kv => toLoadedSecret kv.2)

/-- `computeHookDiff` from the caller-supplied-keys hook module: `toUnset`
is the previous keys missing from the new secrets, and `toSet` is the whole
new secrets list. -/
def computeHookDiff (previousKeys : List String) (newSecrets : List LoadedSecret) :
    HookDiffP :=
  let newKeys := newSecrets.map (fun s => s.key)
  { toUnset := previousKeys.filter (fun k => !(newKeys.contains k)),
    toSet := newSecrets }

/-- `generateShellCommands` of the caller-supplied-keys hook module
(same command texts, unsets before sets). -/
def generateShellCommandsP (diff : HookDiffP) (shell : Shell) : List String :=
  diff.toUnset.map (unsetCommand shell) ++ diff.toSet.map (setCommand shell)

/-- `formatHookMessage` of the caller-supplied-keys hook module. -/
def formatHookMessageP (diff : HookDiffP) (useColor : Bool) : Option String :=
  let loaded := diff.toSet.length
  let unloaded := diff.toUnset.length
  if loaded == 0 && unloaded == 0 then none
  else
    let dim := if useColor then "\x1b[2m" else ""
    let reset := if useColor then "\x1b[0m" else ""
    let body :=
      if unloaded > 0 && loaded > 0 then
        "unloaded " ++ toString unloaded ++ ", loaded " ++ toString loaded
      else if loaded > 0 then
        "loaded " ++ toString loaded ++ " secret" ++ (if loaded == 1 then "" else "s")
      else
        "unloaded " ++ toString unloaded ++ " secret" ++ (if unloaded == 1 then "" else "s")
    some (dim ++ "burrow: " ++ body ++ reset)

/-- JS `new Set(list)` iteration order: first occurrences, in order. -/
def dedupFirst : List String → List String
  | [] => []
  | x :: xs => x :: (dedupFirst xs).filter (fun y => !(y == x))

/-- The `notTrustedReason` values of a hook result. -/
inductive HookNotTrustedReason
  | notTrusted
  | inodeMismatch
  | pathNotFound
  | autoloadDisabled
deriving DecidableEq

/-- Translation of a trust check reason into a hook result reason. -/
def trustReasonToHook : Option TrustReason → Option HookNotTrustedReason
  | none => none
  | some .notTrusted => some .notTrusted
  | some .inodeMismatch => some .inodeMismatch
  | some .pathNotFound => some .pathNotFound

/-- `HookResult` returned by `BurrowClient.hook`. -/
structure HookResult where
  commands : List String
  message : Option String
  secrets : List LoadedSecret
  unloadedKeys : List String
  trusted : Bool
  notTrustedReason : Option HookNotTrustedReason := none
deriving DecidableEq

/-- `BurrowClient.hook`: the caller-supplied-keys variant wired up in the
client.  `previousKeysArg` is the raw `options.previousKeys` array (the
code wraps it in a JS Set, modelled by `dedupFirst`); `autoloadEnv` and
`noColorEnv` are `process.env["BURROW_AUTOLOAD"]` and
`process.env["NO_COLOR"]`; `useColor` is `options.useColor`.  The result is
`none` when the underlying resolution throws (a propagated canonicalization
error), which cannot happen on the paths the verified statements take. -/
def hookRun (fs : Fs) (followSymlinks : Bool) (store : SecretStore)
    (records : List TrustedPath) (autoloadEnv noColorEnv : Option String)
    (cwd : String) (shell : Shell) (useColor : Option Bool)
    (previousKeysArg : List String) : Option HookResult :=
  let previousKeys := dedupFirst previousKeysArg
  let uc := useColor.getD (noColorEnv == none || noColorEnv == some "")
  if autoloadEnv == some "0" then
    let diff := computeHookDiff previousKeys []
    let commands := generateShellCommandsP diff shell
    let message :=
      if diff.toUnset.length > 0 then formatHookMessageP diff uc else none
    some { commands := commands, message := message, secrets := [],
           unloadedKeys := diff.toUnset, trusted := false,
           notTrustedReason := some .autoloadDisabled }
  else
    let trustResult := isTrusted fs followSymlinks records cwd
    if !trustResult.trusted then
      let diff := computeHookDiff previousKeys []
      let commands := generateShellCommandsP diff shell
      let message :=
        if diff.toUnset.length > 0 then formatHookMessageP diff uc else none
      some { commands := commands, message := message, secrets := [],
             unloadedKeys := diff.toUnset, trusted := false,
             notTrustedReason := trustReasonToHook trustResult.reason }
    else
      match canonicalize fs followSymlinks cwd with
      | none => none
      | some canonicalCwd =>
        let resolvedSecrets := resolveCanonical store canonicalCwd
        let secrets := resolveToLoadedSecrets resolvedSecrets
        let diff := computeHookDiff previousKeys secrets
        let commands := generateShellCommandsP diff shell
        let message := formatHookMessageP diff uc
        some { commands := commands, message := message, secrets := secrets,
               unloadedKeys := diff.toUnset, trusted := true }

/-- The key pattern of the core layer, `^[A-Za-z_][A-Za-z0-9_]*$`: first
character class. -/
def isKeyStartChar (c : Char) : Bool :=
  c.isAlpha || c == '_'

/-- The key pattern's continuation character class `[A-Za-z0-9_]`. -/
def isKeyChar (c : Char) : Bool :=
  c.isAlphanum || c == '_'

/-- `validateEnvKey`: the regular expression `^[A-Za-z_][A-Za-z0-9_]*$`
tested against the whole key. -/
def validateEnvKey (key : String) : Bool :=
  match key.toList with
  | [] => false
  | c :: rest => isKeyStartChar c && rest.all isKeyChar

/-- Errors the client API can raise: the invalid-key-format error thrown by
`assertValidEnvKey`, or a propagated canonicalization error. -/
inductive ApiError
  | invalidKey
  | pathError
deriving DecidableEq

/-- `BurrowClient.set`: assert the key format, canonicalize the target path,
then store the value.  The returned store is unchanged on either error. -/
def apiSet (fs : Fs) (followSymlinks : Bool) (store : SecretStore)
    (key value targetPath : String) : Except ApiError Unit × SecretStore :=
  if validateEnvKey key then
    match canonicalize fs followSymlinks targetPath with
    | none => (.error .pathError, store)
    | some c => (.ok (), setSecret store c key (some value))
  else
    (.error .invalidKey, store)

/-- `BurrowClient.block`: like `set` but storing the tombstone (`null`). -/
def apiBlock (fs : Fs) (followSymlinks : Bool) (store : SecretStore)
    (key targetPath : String) : Except ApiError Unit × SecretStore :=
  if validateEnvKey key then
    match canonicalize fs followSymlinks targetPath with
    | none => (.error .pathError, store)
    | some c => (.ok (), setSecret store c key none)
  else
    (.error .invalidKey, store)

/-- `Storage.removeKey`: report whether a row for `(path, key)` exists and
delete it. -/
def removeKey (store : SecretStore) (path key : String) : Bool × SecretStore :=
  if store.any (fun r => r.path == path && r.key == key) then
    (true, store.filter (fun r => !(r.path == path && r.key == key)))
  else
    (false, store)

/-- `BurrowClient.remove`: assert the key format, canonicalize, then delete
the exact row. -/
def apiRemove (fs : Fs) (followSymlinks : Bool) (store : SecretStore)
    (key targetPath : String) : Except ApiError Bool × SecretStore :=
  if validateEnvKey key then
    match canonicalize fs followSymlinks targetPath with
    | none => (.error .pathError, store)
    | some c =>
      let r := removeKey store c key
      (.ok r.1, r.2)
  else
    (.error .invalidKey, store)

/-- Spec-side predicate for the persisted-state diff: the key was previously
loaded, i.e. appears in the persisted secrets list. -/
def prevLoaded (cur : List LoadedSecret) (k : String) : Option LoadedSecret :=
  cur.find? (fun t => t.key == k)

/-- Spec-side classification: previously loaded with identical value and
source. -/
def unchangedCase (cur : List LoadedSecret) (s : ResolvedSecret) : Bool :=
  match prevLoaded cur s.key with
  | some t => t.value == s.value && t.sourcePath == s.sourcePath
  | none => false

/-- Spec-side classification: not previously loaded, the live environment
defines the key, and the key was not flagged as skipped in a prior round. -/
def skipCase (cur : List LoadedSecret) (sk : List String)
    (env : String → Option String) (s : ResolvedSecret) : Bool :=
  (prevLoaded cur s.key).isNone && (env s.key).isSome && !(sk.contains s.key)

/-- Spec-side classification: everything neither unchanged nor skipped is
(re)set. -/
def setCase (cur : List LoadedSecret) (sk : List String)
    (env : String → Option String) (s : ResolvedSecret) : Bool :=
  !(unchangedCase cur s) && !(skipCase cur sk env s)

/-- Fixture: a filesystem on which every path is missing (`realpath` fails
with ENOENT and `stat` throws). -/
def fsAllMissing : Fs :=
  { realpath := fun _ => .enoent, resolveLex := fun p => p,
    statInode := fun _ => none }

/-- Fixture: a filesystem where realpath is the identity and no inode can be
read. -/
def fsTrivial : Fs :=
  { realpath := fun p => .ok p, resolveLex := fun p => p,
    statInode := fun _ => none }

/-- Fixture: a filesystem where realpath is the identity, `/p` currently has
inode `i1`, and every other path's `stat` throws. -/
def fsTrusting : Fs :=
  { realpath := fun p => .ok p, resolveLex := fun p => p,
    statInode := fun p => if p == "/p" then some "i1" else none }

/-- Fixture: two trust records, the deeper of which is stale (its recorded
inode `i2` no longer matches anything on `fsTrusting`). -/
def trustRecsTwo : List TrustedPath :=
  [{ path := "/p", inode := "i1", trustedAt := "t0" },
   { path := "/p/q", inode := "i2", trustedAt := "t1" }]

/-- Fixture: a single trusted directory `/p` whose recorded inode matches
`fsTrusting`. -/
def trustRecOne : List TrustedPath :=
  [{ path := "/p", inode := "i1", trustedAt := "t0" }]

/-- Fixture: a store with one secret `K = v` at scope `/p`. -/
def storeOne : SecretStore :=
  [{ path := "/p", key := "K", value := some "v" }]

/-- Fixture: the hook result produced for the trusted scenario of the
caller-supplied-keys hook exercised by the closed statements below. -/
def hookResultOne : HookResult :=
  { commands := [setCommand Shell.bash { key := "K", value := "v", sourcePath := "/p" }],
    message := some "burrow: loaded 1 secret",
    secrets := [{ key := "K", value := "v", sourcePath := "/p" }],
    unloadedKeys := [],
    trusted := true,
    notTrustedReason := none }

/-- Fixture: a persisted hook state holding the single key `A`. -/
def hookStateA : HookState :=
  { secrets := [{ key := "A", value := "x", sourcePath := "/p" }],
    lastDir := "/p", loadedAt := "t0", skippedKeys := [] }

/-- Fixture: a new resolution holding the single key `B`. -/
def newSecretB : List ResolvedSecret :=
  [{ key := "B", value := "y", sourcePath := "/p" }]

/-- Fixture: a persisted hook state holding keys `A` and `B`. -/
def hookStateAB : HookState :=
  { secrets := [{ key := "A", value := "x", sourcePath := "/p" },
                { key := "B", value := "y", sourcePath := "/p" }],
    lastDir := "/p", loadedAt := "t0", skippedKeys := [] }

/-- Fixture: a new resolution where `A` is unchanged, `B` changed value,
`C` collides with the live environment, and `D` is fresh. -/
def newSecretsABCD : List ResolvedSecret :=
  [{ key := "A", value := "x", sourcePath := "/p" },
   { key := "B", value := "z", sourcePath := "/p" },
   { key := "C", value := "c", sourcePath := "/p" },
   { key := "D", value := "d", sourcePath := "/p" }]

/-- Fixture: a live environment defining exactly the variable `C`. -/
def envOnlyC : String → Option String :=
  fun k => if k == "C" then some "envc" else none

/-! Theorems.  Each claim's theorem carries the claim id in its doc
comment; shared helper lemmas come first. -/

/-- In a `Pairwise r` list, the first element satisfying `p` is `r`-related
to every other element satisfying `p`. -/
theorem find_first_rel_of_pairwise {α : Type} {r : α → α → Prop} {p : α → Bool} :
    ∀ {l : List α} {x : α}, l.Pairwise r → l.find? p = some x →
      ∀ y ∈ l, p y = true → y = x ∨ r x y := by
  intro l
  induction l with
  | nil => intro x _ hf; simp at hf
  | cons a l ih =>
    intro x hp hf y hy hpy
    have hpa := hp.tail
    cases hqa : p a with
    | true =>
      rw [List.find?_cons_of_pos _ hqa] at hf
      cases hf
      rcases List.mem_cons.mp hy with h | h
      · exact Or.inl h
      · exact Or.inr (List.rel_of_pairwise_cons hp h)
    | false =>
      rw [List.find?_cons_of_neg _ (by simp [hqa])] at hf
      rcases List.mem_cons.mp hy with h | h
      · subst h; rw [hqa] at hpy; cases hpy
      · exact ih hpa hf y h hpy

/-- C1: the claim that `resolve(D)` contains `k` iff the deepest ancestor
scope of `D` with an entry for `k` holds a real value fails on the code.
The store holds one secret `K = v` at scope `/a_c`; resolving the directory
`/abc/x` nevertheless yields `K` sourced at `/a_c`, although no stored
scope is an ancestor of `/abc/x` (the storage ancestor query concatenates
the stored path into a SQL LIKE pattern, so its underscore matches the `b`
of `/abc`). -/
theorem c1_resolve_wildcard_bug :
    jsMapGet
        (resolveCanonical [{ path := "/a_c", key := "K", value := some "v" }] "/abc/x")
        "K" =
      some { key := "K", value := "v", sourcePath := "/a_c" } ∧
    List.filter (fun r => isAncestorOf r.path "/abc/x")
        [({ path := "/a_c", key := "K", value := some "v" } : SecretRow)] = [] := by
  decide

/-- C2: `isAncestorOf` does compute the segment-exact relation (the three
spec examples hold, and the stored path of the failing input is not an
ancestor), but the storage ancestor queries do not: with the stored scope
`/a_c`, both `getAncestorPaths` and `getTrustedAncestorPaths` report it as
an ancestor of `/abc/x` because the unescaped SQL LIKE pattern treats the
underscore as a single-character wildcard. -/
theorem c2_ancestor_query_wildcard_bug :
    isAncestorOf "/home/user" "/home/username" = false ∧
    isAncestorOf "/home/user" "/home/user/x" = true ∧
    isAncestorOf "/" "/home/user" = true ∧
    isAncestorOf "/a_c" "/abc/x" = false ∧
    getAncestorPaths [{ path := "/a_c", key := "K", value := some "v" }] "/abc/x" =
      ["/a_c"] ∧
    getTrustedAncestorRecords [{ path := "/a_c", inode := "i", trustedAt := "t" }]
        "/abc/x" =
      [{ path := "/a_c", inode := "i", trustedAt := "t" }] := by
  decide

/-- C3: the tombstone law fails on the code.  After `set("K", null, "/d")`
places a tombstone at `/d` (here on a store already holding `K = v` at the
scope named `/d/_`), resolving `/d/e/f` — a directory with `/d` as ancestor
— still yields `K`, although no scope strictly between `/d` and `/d/e/f`
sets `K`: the scope `/d/_` is not an ancestor of `/d/e/f` at all, but the
storage query's LIKE pattern lets its underscore match the `e` segment, and
since `/d` sorts before `/d/_` the non-ancestor value is merged after the
tombstone. -/
theorem c3_tombstone_wildcard_bug :
    isAncestorOf "/d" "/d/e/f" = true ∧
    jsMapGet
        (resolveCanonical
          (setSecret [{ path := "/d/_", key := "K", value := some "v" }] "/d" "K" none)
          "/d/e/f")
        "K" =
      some { key := "K", value := "v", sourcePath := "/d/_" } ∧
    List.filter
        (fun r => isAncestorOf "/d" r.path && !(r.path == "/d") &&
          isAncestorOf r.path "/d/e/f")
        (setSecret [{ path := "/d/_", key := "K", value := some "v" }] "/d" "K" none) =
      [] := by
  decide

/-- C7: counterexample.  On a filesystem where `/ghost` does not exist
(`realpath` fails with ENOENT), `isTrusted` does not return
`path-not-found`: `canonicalize` swallows ENOENT and falls back to lexical
resolution, so with no trust records the result is `not-trusted`. -/
theorem c7_pathNotFound_counterexample :
    fsAllMissing.realpath "/ghost" = RealpathResult.enoent ∧
    isTrusted fsAllMissing true [] "/ghost" =
      { trusted := false, trustedPath := none,
        reason := some TrustReason.notTrusted } ∧
    (isTrusted fsAllMissing true [] "/ghost").reason ≠
      some TrustReason.pathNotFound := by
  decide

/-- C4: for a target whose canonicalization succeeds, `isTrusted` answers
`not-trusted` when the storage query yields no candidate records; otherwise
it is trusted exactly when some candidate's current inode matches its
recorded inode, the reported `trustedPath` is a matching candidate of
maximal path length (deepest-first scan, first match wins, stale or missing
candidates are skipped rather than failing fast), and it answers
`inode-mismatch` exactly when every candidate fails. -/
theorem c4_isTrusted_deepest_first (fs : Fs) (followSymlinks : Bool)
    (records : List TrustedPath) (target c : String) (cands : List TrustedPath)
    (hc : canonicalize fs followSymlinks target = some c)
    (hq : getTrustedAncestorRecords records c = cands) :
    (cands = [] → isTrusted fs followSymlinks records target =
      { trusted := false, trustedPath := none,
        reason := some TrustReason.notTrusted }) ∧
    ((isTrusted fs followSymlinks records target).trusted = true ↔
      ∃ t ∈ cands, inodeMatches fs t = true) ∧
    ((isTrusted fs followSymlinks records target).trusted = true →
      ∃ t ∈ cands, inodeMatches fs t = true ∧
        (isTrusted fs followSymlinks records target).trustedPath = some t.path ∧
        ∀ u ∈ cands, inodeMatches fs u = true → u.path.length ≤ t.path.length) ∧
    (cands ≠ [] →
      (isTrusted fs followSymlinks records target =
          { trusted := false, trustedPath := none,
            reason := some TrustReason.inodeMismatch } ↔
        ∀ t ∈ cands, ¬ inodeMatches fs t = true)) := by
  subst hq
  cases hgl : getTrustedAncestorRecords records c with
  | nil =>
    have hres : isTrusted fs followSymlinks records target =
        { trusted := false, trustedPath := none,
          reason := some TrustReason.notTrusted } := by
      simp only [isTrusted, hc, hgl, List.isEmpty_nil, if_true]
    rw [hres]
    simp
  | cons a l =>
    have hperm : List.Perm (sortTrustDeepestFirst (a :: l)) (a :: l) :=
      List.perm_insertionSort _ _
    have hsorted : (sortTrustDeepestFirst (a :: l)).Pairwise deeperFirst :=
      List.sorted_insertionSort _ _
    cases hf : (sortTrustDeepestFirst (a :: l)).find? (fun t => inodeMatches fs t) with
    | some t =>
      have hres : isTrusted fs followSymlinks records target =
          { trusted := true, trustedPath := some t.path, reason := none } := by
        simp only [isTrusted, hc, hgl, List.isEmpty_cons, Bool.false_eq_true,
          if_false, hf]
      have hmem : t ∈ a :: l := hperm.mem_iff.mp (List.mem_of_find?_eq_some hf)
      have hmatch : inodeMatches fs t = true := by
        have := List.find?_some hf
        simpa using this
      rw [hres]
      refine ⟨fun h => absurd h (List.cons_ne_nil a l), ?_, ?_, ?_⟩
      · exact iff_of_true rfl ⟨t, hmem, hmatch⟩
      · intro _
        refine ⟨t, hmem, hmatch, rfl, ?_⟩
        intro u hu hmu
        have hu2 : u ∈ sortTrustDeepestFirst (a :: l) := hperm.mem_iff.mpr hu
        rcases find_first_rel_of_pairwise hsorted hf u hu2 (by simpa using hmu) with
          h | h
        · subst h; exact Nat.le_refl _
        · exact h
      · intro _
        refine iff_of_false ?_ ?_
        · intro habs
          simp at habs
        · intro hall
          exact hall t hmem hmatch
    | none =>
      have hres : isTrusted fs followSymlinks records target =
          { trusted := false, trustedPath := none,
            reason := some TrustReason.inodeMismatch } := by
        simp only [isTrusted, hc, hgl, List.isEmpty_cons, Bool.false_eq_true,
          if_false, hf]
      have hnone : ∀ u ∈ a :: l, ¬ inodeMatches fs u = true := by
        intro u hu hmu
        have hu2 : u ∈ sortTrustDeepestFirst (a :: l) := hperm.mem_iff.mpr hu
        have := List.find?_eq_none.mp hf u hu2
        simp [hmu] at this
      rw [hres]
      refine ⟨fun h => absurd h (List.cons_ne_nil a l), ?_, ?_, ?_⟩
      · refine iff_of_false (by simp) ?_
        rintro ⟨t, ht, hpt⟩
        exact hnone t ht hpt
      · intro h
        simp at h
      · intro _
        exact iff_of_true rfl hnone

/-- Closed witness for C4: on `fsTrusting` with one stale deep record and
one valid shallower record, the hypotheses of the theorem hold at
`/p/q` and the trusted result coincides with the existence of a matching
candidate. -/
theorem c4_isTrusted_deepest_first_witness :
    canonicalize fsTrusting true "/p/q" = some "/p/q" ∧
    getTrustedAncestorRecords trustRecsTwo "/p/q" = trustRecsTwo ∧
    ((isTrusted fsTrusting true trustRecsTwo "/p/q").trusted = true ↔
      ∃ t ∈ trustRecsTwo, inodeMatches fsTrusting t = true) :=
  ⟨by decide, by decide,
    (c4_isTrusted_deepest_first fsTrusting true trustRecsTwo "/p/q" "/p/q"
      trustRecsTwo (by decide) (by decide)).2.1⟩

/-- C7 amended: `isTrusted` returns `path-not-found` exactly when
canonicalization throws, i.e. when `realpath` fails with an error other
than ENOENT; a merely missing path is swallowed by the lexical fallback,
so it never yields `path-not-found` (the check then proceeds and reports
`not-trusted`, `inode-mismatch`, or a trusted ancestor). -/
theorem c7_pathNotFound_amended (fs : Fs) (records : List TrustedPath) (p : String) :
    ((isTrusted fs true records p).reason = some TrustReason.pathNotFound ↔
      canonicalize fs true p = none) ∧
    (fs.realpath p = RealpathResult.enoent →
      (isTrusted fs true records p).reason ≠ some TrustReason.pathNotFound) := by
  have hiff : (isTrusted fs true records p).reason = some TrustReason.pathNotFound ↔
      canonicalize fs true p = none := by
    cases h : canonicalize fs true p with
    | none => simp [isTrusted, h]
    | some c =>
      simp only [isTrusted, h]
      refine iff_of_false ?_ (by simp)
      intro hcontra
      split at hcontra
      · simp at hcontra
      · split at hcontra <;> simp_all
  refine ⟨hiff, fun he hcontra => ?_⟩
  have h2 := hiff.mp hcontra
  simp [canonicalize, he] at h2

/-- Closed witness for C7's amended statement: on a filesystem where
`/ghost` is missing with ENOENT, `isTrusted` does not answer
`path-not-found`. -/
theorem c7_pathNotFound_amended_witness :
    fsAllMissing.realpath "/ghost" = RealpathResult.enoent ∧
    (isTrusted fsAllMissing true [] "/ghost").reason ≠
      some TrustReason.pathNotFound :=
  ⟨by decide, (c7_pathNotFound_amended fsAllMissing [] "/ghost").2 (by decide)⟩

/-- C8: `set`, `block` and `remove` fail with the invalid-key error exactly
when the key fails the pattern `^[A-Za-z_][A-Za-z0-9_]*$`, and whenever
that error is raised the returned store equals the input store — the
assertion runs before canonicalization and before any storage access. -/
theorem c8_invalid_key_boundary (fs : Fs) (followSymlinks : Bool)
    (store : SecretStore) (key value targetPath : String) :
    ((apiSet fs followSymlinks store key value targetPath).1 =
        Except.error ApiError.invalidKey ↔ validateEnvKey key = false) ∧
    ((apiSet fs followSymlinks store key value targetPath).1 =
        Except.error ApiError.invalidKey →
      (apiSet fs followSymlinks store key value targetPath).2 = store) ∧
    ((apiBlock fs followSymlinks store key targetPath).1 =
        Except.error ApiError.invalidKey ↔ validateEnvKey key = false) ∧
    ((apiBlock fs followSymlinks store key targetPath).1 =
        Except.error ApiError.invalidKey →
      (apiBlock fs followSymlinks store key targetPath).2 = store) ∧
    ((apiRemove fs followSymlinks store key targetPath).1 =
        Except.error ApiError.invalidKey ↔ validateEnvKey key = false) ∧
    ((apiRemove fs followSymlinks store key targetPath).1 =
        Except.error ApiError.invalidKey →
      (apiRemove fs followSymlinks store key targetPath).2 = store) := by
  cases hv : validateEnvKey key with
  | false => simp [apiSet, apiBlock, apiRemove, hv]
  | true =>
    cases hcv : canonicalize fs followSymlinks targetPath with
    | none => simp [apiSet, apiBlock, apiRemove, hv, hcv]
    | some c => simp [apiSet, apiBlock, apiRemove, hv, hcv]

/-- Closed witness for C8: the key `1BAD` fails the pattern, `set` raises
the invalid-key error, and the store is unchanged. -/
theorem c8_invalid_key_boundary_witness :
    validateEnvKey "1BAD" = false ∧
    (apiSet fsTrivial true storeOne "1BAD" "v" "/p").1 =
      Except.error ApiError.invalidKey ∧
    (apiSet fsTrivial true storeOne "1BAD" "v" "/p").2 = storeOne :=
  ⟨by decide, by rfl,
    (c8_invalid_key_boundary fsTrivial true storeOne "1BAD" "v" "/p").2.1
      (by rfl)⟩

/-- Setting a key absent from a JS map appends the pair. -/
theorem jsMapSet_append {α : Type} (m : List (String × α)) (k : String) (v : α)
    (h : m.any (fun e => e.1 == k) = false) :
    jsMapSet m k v = m ++ [(k, v)] := by
  unfold jsMapSet
  rw [h]
  simp

/-- Filling a JS map from a secrets list whose keys are distinct and absent
from the map appends the key-indexed pairs in order. -/
theorem buildMap_go (l : List LoadedSecret) :
    ∀ m : List (String × LoadedSecret),
      (∀ s ∈ l, m.any (fun e => e.1 == s.key) = false) →
      (l.map (fun s => s.key)).Nodup →
      l.foldl (fun m s => jsMapSet m s.key s) m =
        m ++ l.map (fun s => (s.key, s)) := by
  induction l with
  | nil => intro m _ _; simp
  | cons s l ih =>
    intro m hm hnd
    have hnd2 := List.nodup_cons.mp
      (show (s.key :: l.map (fun t => t.key)).Nodup by
        simpa only [List.map_cons] using hnd)
    rw [List.foldl_cons, jsMapSet_append m s.key s (hm s (List.mem_cons_self s l)),
      ih (m ++ [(s.key, s)]) ?hdisj hnd2.2]
    · simp
    case hdisj =>
      intro t ht
      have h1 := hm t (List.mem_cons_of_mem s ht)
      have h2 : (s.key == t.key) = false := by
        refine beq_eq_false_iff_ne.mpr ?_
        intro hkey
        exact hnd2.1 (hkey ▸ List.mem_map_of_mem (fun s => s.key) ht)
      simp [List.any_append, h1, h2]

/-- The `currentKeys` map of `computeDiff` is the key-indexed view of the
persisted secrets list whenever that list has no duplicate keys. -/
theorem currentKeysMap_eq (st : HookState)
    (hnd : (st.secrets.map (fun s => s.key)).Nodup) :
    currentKeysMap (some st) = st.secrets.map (fun s => (s.key, s)) := by
  unfold currentKeysMap
  simp only [Option.elim]
  simpa using buildMap_go st.secrets [] (fun s _ => rfl) hnd

/-- Finding in the key-indexed pair view matches finding in the secrets
list. -/
theorem find?_map_pairs (l : List LoadedSecret) (k : String) :
    (l.map (fun s => (s.key, s))).find? (fun e => e.1 == k) =
      (l.find? (fun s => s.key == k)).map (fun s => (s.key, s)) := by
  induction l with
  | nil => rfl
  | cons s l ih =>
    rw [List.map_cons]
    cases h : (s.key == k) with
    | true => simp [List.find?_cons, h]
    | false => simp [List.find?_cons, h, ih]

/-- Lookup in the key-indexed pair view is `prevLoaded`. -/
theorem jsMapGet_mapPairs (l : List LoadedSecret) (k : String) :
    jsMapGet (l.map (fun s => (s.key, s))) k = prevLoaded l k := by
  unfold jsMapGet prevLoaded
  rw [find?_map_pairs]
  cases l.find? (fun s => s.key == k) <;> rfl

/-- The classification loop of `computeDiff` computes exactly the spec-side
filters: to-set, skipped and unchanged keys in resolution order. -/
theorem classifyNew_filter (cur : List LoadedSecret) (sk : List String)
    (env : String → Option String) :
    ∀ l : List ResolvedSecret,
      classifyNew (cur.map (fun s => (s.key, s))) sk env l =
        ((l.filter (setCase cur sk env)).map toLoadedSecret,
         (l.filter (skipCase cur sk env)).map (fun s => s.key),
         (l.filter (unchangedCase cur)).map (fun s => s.key)) := by
  intro l
  induction l with
  | nil => rfl
  | cons s l ih =>
    simp only [classifyNew, jsMapGet_mapPairs, ih]
    cases hp : prevLoaded cur s.key with
    | some c =>
      cases hsame : (c.value == s.value && c.sourcePath == s.sourcePath) with
      | true =>
        have h1 : unchangedCase cur s = true := by
          unfold unchangedCase; rw [hp]; exact hsame
        have h2 : skipCase cur sk env s = false := by
          unfold skipCase; rw [hp]; simp
        have h3 : setCase cur sk env s = false := by
          unfold setCase; rw [h1]; rfl
        simp [List.filter_cons, h1, h2, h3]
        simpa using hsame
      | false =>
        have h1 : unchangedCase cur s = false := by
          unfold unchangedCase; rw [hp]; exact hsame
        have h2 : skipCase cur sk env s = false := by
          unfold skipCase; rw [hp]; simp
        have h3 : setCase cur sk env s = true := by
          unfold setCase; rw [h1, h2]; rfl
        simp [List.filter_cons, h1, h2, h3]
        simpa using hsame
    | none =>
      cases hskip : ((env s.key).isSome && !(sk.contains s.key)) with
      | true =>
        have h1 : unchangedCase cur s = false := by
          unfold unchangedCase; rw [hp]
        have h2 : skipCase cur sk env s = true := by
          unfold skipCase; rw [hp]; simpa using hskip
        have h3 : setCase cur sk env s = false := by
          unfold setCase; rw [h2]; simp
        simp [List.filter_cons, h1, h2, h3]
      | false =>
        have h1 : unchangedCase cur s = false := by
          unfold unchangedCase; rw [hp]
        have h2 : skipCase cur sk env s = false := by
          unfold skipCase; rw [hp]; simpa using hskip
        have h3 : setCase cur sk env s = true := by
          unfold setCase; rw [h1, h2]; rfl
        simp [List.filter_cons, h1, h2, h3]

/-- C5: for a persisted state with distinct keys, `computeDiff.unset` is
exactly the previously loaded keys (in order) absent from the new
resolution, and `generateShellCommands` always emits every unset command
before any set command. -/
theorem c5_computeDiff_unset_order (st : HookState)
    (newSecrets : List ResolvedSecret) (env : String → Option String)
    (hnd : (st.secrets.map (fun s => s.key)).Nodup) :
    (computeDiff (some st) newSecrets env).unset =
      (st.secrets.map (fun s => s.key)).filter
        (fun k => !(newSecrets.any (fun s => s.key == k))) ∧
    ∀ (d : HookDiff) (shell : Shell),
      generateShellCommands d shell =
        d.unset.map (unsetCommand shell) ++ d.set.map (setCommand shell) := by
  constructor
  · unfold computeDiff
    simp only [currentKeysMap_eq st hnd]
    simp [List.map_map, Function.comp]
    rfl
  · intro d shell
    rfl

/-- Closed witness for C5: the spec's own instance — previous keys `{A}`,
new secrets `{B}`, empty environment — yields `unset = [A]`, `set = [B]`,
and the generated bash commands unset `A` before setting `B`. -/
theorem c5_computeDiff_unset_order_witness :
    (hookStateA.secrets.map (fun s => s.key)).Nodup ∧
    (computeDiff (some hookStateA) newSecretB (fun _ => none)).unset =
      (hookStateA.secrets.map (fun s => s.key)).filter
        (fun k => !(newSecretB.any (fun s => s.key == k))) ∧
    (computeDiff (some hookStateA) newSecretB (fun _ => none)).unset = ["A"] ∧
    (computeDiff (some hookStateA) newSecretB (fun _ => none)).set =
      [{ key := "B", value := "y", sourcePath := "/p" }] ∧
    generateShellCommands (computeDiff (some hookStateA) newSecretB (fun _ => none))
        Shell.bash =
      [unsetCommand Shell.bash "A",
       setCommand Shell.bash { key := "B", value := "y", sourcePath := "/p" }] :=
  ⟨by decide,
    (c5_computeDiff_unset_order hookStateA newSecretB (fun _ => none) (by decide)).1,
    by decide, by decide, by decide⟩

/-- C6: for a persisted state with distinct keys, `computeDiff` classifies
every key of the new resolution exactly as the spec states — unchanged when
previously loaded with identical value and source, to-set when previously
loaded with a different value or source, skipped when not previously
loaded while the live environment defines it and it is not in the prior
state's skipped set, and to-set otherwise. -/
theorem c6_computeDiff_classification (st : HookState)
    (newSecrets : List ResolvedSecret) (env : String → Option String)
    (hnd : (st.secrets.map (fun s => s.key)).Nodup) :
    (computeDiff (some st) newSecrets env).set =
      (newSecrets.filter (setCase st.secrets st.skippedKeys env)).map
        toLoadedSecret ∧
    (computeDiff (some st) newSecrets env).skipped =
      (newSecrets.filter (skipCase st.secrets st.skippedKeys env)).map
        (fun s => s.key) ∧
    (computeDiff (some st) newSecrets env).unchanged =
      (newSecrets.filter (unchangedCase st.secrets)).map (fun s => s.key) := by
  unfold computeDiff
  simp only [currentKeysMap_eq st hnd, Option.elim]
  rw [classifyNew_filter]
  simp

/-- Closed witness for C6: with previously loaded `A` (unchanged) and `B`
(value changed), a new resolution also holding `C` (already defined in the
live environment) and `D` (fresh), the diff marks `A` unchanged, skips
`C`, and re-sets `B` and `D`. -/
theorem c6_computeDiff_classification_witness :
    (hookStateAB.secrets.map (fun s => s.key)).Nodup ∧
    (computeDiff (some hookStateAB) newSecretsABCD envOnlyC).unchanged =
      (newSecretsABCD.filter (unchangedCase hookStateAB.secrets)).map
        (fun s => s.key) ∧
    (computeDiff (some hookStateAB) newSecretsABCD envOnlyC).unchanged = ["A"] ∧
    (computeDiff (some hookStateAB) newSecretsABCD envOnlyC).skipped = ["C"] ∧
    (computeDiff (some hookStateAB) newSecretsABCD envOnlyC).set =
      [{ key := "B", value := "z", sourcePath := "/p" },
       { key := "D", value := "d", sourcePath := "/p" }] :=
  ⟨by decide,
    (c6_computeDiff_classification hookStateAB newSecretsABCD envOnlyC
      (by decide)).2.2,
    by decide, by decide, by decide⟩

/-- C9: whenever `BURROW_AUTOLOAD` is `"0"`, the hook reports untrusted
with the reason `autoload-disabled`, loads no secrets, and its commands are
exactly one unset command per supplied previous key (in first-occurrence
order of the key set), with no set commands. -/
theorem c9_autoload_disabled (fs : Fs) (followSymlinks : Bool)
    (store : SecretStore) (records : List TrustedPath)
    (noColorEnv : Option String) (cwd : String) (shell : Shell)
    (useColor : Option Bool) (previousKeysArg : List String) :
    ∃ r, hookRun fs followSymlinks store records (some "0") noColorEnv cwd shell
        useColor previousKeysArg = some r ∧
      r.trusted = false ∧
      r.notTrustedReason = some HookNotTrustedReason.autoloadDisabled ∧
      r.secrets = [] ∧
      r.unloadedKeys = dedupFirst previousKeysArg ∧
      r.commands = (dedupFirst previousKeysArg).map (unsetCommand shell) := by
  have hdiff : computeHookDiff (dedupFirst previousKeysArg) [] =
      { toUnset := dedupFirst previousKeysArg, toSet := [] } := by
    unfold computeHookDiff
    simp only [List.map_nil]
    congr 1
    apply List.filter_eq_self.mpr
    intro a _
    rfl
  refine ⟨_, rfl, ?_, ?_, ?_, ?_, ?_⟩ <;>
    simp [hookRun, hdiff, generateShellCommandsP]

/-- C10: the caller-supplied-keys diff re-emits the entire new resolution —
`toSet` is always the whole new secrets list, `toUnset` the previous keys
missing from it — and in the trusted case `BurrowClient.hook`'s commands
are the unsets followed by one set command per resolved secret, so a key
present in `previousKeys` or in the live environment is set regardless. -/
theorem c10_hook_reemits_all (previousKeys : List String)
    (newSecrets : List LoadedSecret) :
    (computeHookDiff previousKeys newSecrets).toSet = newSecrets ∧
    (computeHookDiff previousKeys newSecrets).toUnset =
      previousKeys.filter
        (fun k => !((newSecrets.map (fun s => s.key)).contains k)) ∧
    ∀ (fs : Fs) (followSymlinks : Bool) (store : SecretStore)
      (records : List TrustedPath) (autoloadEnv noColorEnv : Option String)
      (cwd : String) (shell : Shell) (useColor : Option Bool) (r : HookResult),
      hookRun fs followSymlinks store records autoloadEnv noColorEnv cwd shell
          useColor previousKeys = some r →
      r.trusted = true →
      (r.commands =
        (computeHookDiff (dedupFirst previousKeys) r.secrets).toUnset.map
            (unsetCommand shell) ++
          r.secrets.map (setCommand shell) ∧
        ∀ s ∈ r.secrets, setCommand shell s ∈ r.commands) := by
  refine ⟨rfl, rfl, ?_⟩
  intro fs followSymlinks store records autoloadEnv noColorEnv cwd shell
    useColor r hr ht
  simp only [hookRun] at hr
  split at hr
  · rw [Option.some_inj] at hr
    subst hr
    simp at ht
  · split at hr
    · rw [Option.some_inj] at hr
      subst hr
      simp at ht
    · split at hr
      · simp at hr
      · rw [Option.some_inj] at hr
        subst hr
        refine ⟨rfl, ?_⟩
        intro s hs
        exact List.mem_append_right _ (List.mem_map_of_mem _ hs)

/-- Closed witness for C10: in a trusted directory resolving the single
secret `K`, a hook call whose `previousKeys` already contains `K` still
emits the export command for `K`. -/
theorem c10_hook_reemits_all_witness :
    hookRun fsTrusting true storeOne trustRecOne none none "/p/q" Shell.bash
        (some false) ["K"] = some hookResultOne ∧
    hookResultOne.trusted = true ∧
    hookResultOne.commands =
      (computeHookDiff (dedupFirst ["K"]) hookResultOne.secrets).toUnset.map
          (unsetCommand Shell.bash) ++
        hookResultOne.secrets.map (setCommand Shell.bash) :=
  ⟨by decide, by decide,
    ((c10_hook_reemits_all ["K"] []).2.2 fsTrusting true storeOne trustRecOne
        none none "/p/q" Shell.bash (some false) hookResultOne (by decide)
        (by decide)).1⟩

end Burrow
